import Mathlib

/-!
Verification of `extract_google_doc_content.py`: a shallow embedding of the
link resolver, the document flattener, the per-row pipeline, and the batched
writer, together with theorems settling the specification claims.
-/

namespace GDocExtract

/-! ## Python string primitives (`str.strip`, regex character classes) -/

/-- Python whitespace characters recognised by `str.strip()`. -/
def isSpace (c : Char) : Bool :=
  c == ' ' || c == '\t' || c == '\n' || c == '\r' || c == '\x0b' || c == '\x0c'

/-- Characters of the regex class `[a-zA-Z0-9_-]`. -/
def isIdChar (c : Char) : Bool :=
  ('a' ≤ c && c ≤ 'z') || ('A' ≤ c && c ≤ 'Z') || ('0' ≤ c && c ≤ '9') ||
    c == '_' || c == '-'

/-- Drop the leading whitespace run of a character list. -/
def dropLeadingSpace : List Char → List Char
  | [] => []
  | c :: t => if isSpace c then dropLeadingSpace t else c :: t

/-- `str.strip()` on the underlying character list. -/
def stripChars (l : List Char) : List Char :=
  (dropLeadingSpace (dropLeadingSpace l).reverse).reverse

/-- Python `str.strip()`. -/
def pyStrip (s : String) : String :=
  String.mk (stripChars s.data)

/-! ## Regex model for `extract_doc_id` -/

/-- `pat` is a literal left factor of `l` (character-by-character equality). -/
def listStartsWith : List Char → List Char → Bool
  | [], _ => true
  | _ :: _, [] => false
  | p :: ps, c :: cs => p == c && listStartsWith ps cs

/-- The maximal leading run of `[a-zA-Z0-9_-]` characters (regex `+`, greedy). -/
def takeIdRun : List Char → List Char
  | [] => []
  | c :: t => if isIdChar c then c :: takeIdRun t else []

/-- `re.search` for the pattern `pat([a-zA-Z0-9_-]+)`: leftmost position where
the literal `pat` is followed by at least one identifier character; returns the
greedy identifier run captured there. -/
def searchIdAfter (pat : List Char) : List Char → Option (List Char)
  | [] => none
  | c :: t =>
    if listStartsWith pat (c :: t) then
      let run := takeIdRun ((c :: t).drop pat.length)
      if run.isEmpty then searchIdAfter pat t else some run
    else searchIdAfter pat t

/-- Python substring test `needle in hay`. -/
def listContains (needle : List Char) : List Char → Bool
  | [] => needle.isEmpty
  | c :: t => listStartsWith needle (c :: t) || listContains needle t

/-- `re.match(r'^[a-zA-Z0-9_-]{25,60}$', url)` on a string with no trailing
newline (the input has been stripped): the whole string is identifier
characters and its length lies in `[25, 60]`. -/
def matchBareId (l : List Char) : Bool :=
  l.all isIdChar && decide (25 ≤ l.length) && decide (l.length ≤ 60)

/-- `extract_doc_id(url)`.  `none` models Python `None` (and non-string input);
an empty string is falsy and returns `None` at once.  Otherwise the string is
stripped, the `/document/d/<id>` pattern is tried, then `/file/d/<id>`, then
the bare 25-60 character identifier heuristic. -/
def extract_doc_id (url : Option String) : Option String :=
  match url with
  | none => none
  | some u =>
    if u.data.isEmpty then none
    else
      let s := pyStrip u
      match searchIdAfter "/document/d/".data s.data with
      | some run => some (String.mk run)
      | none =>
        match searchIdAfter "/file/d/".data s.data with
        | some run => some (String.mk run)
        | none => if matchBareId s.data then some s else none

/-! ## Rich-document model and the flattener of `read_doc_text` -/

/-- A paragraph element: `some s` is a `textRun` with content `s` (a missing
`content` key defaults to `""`); `none` is a non-`textRun` element, which the
code skips. -/
abbrev Run := Option String

/-- The `elements` list of a paragraph. -/
abbrev Para := List Run

/-- A table cell: its `content` list, where each entry that is a paragraph is
kept as its run list (non-paragraph entries contribute nothing, exactly like a
paragraph with no runs, so they are modelled as `[]`). -/
abbrev Cell := List Para

/-- A top-level body element: a paragraph, a table (its `tableRows`, each row
being its `tableCells`; an absent key behaves as the empty list), or any other
element, which the code ignores. -/
inductive Block where
  | para (elems : Para)
  | table (rows : List (List Cell))
  | other
deriving DecidableEq

/-- The `body.content` list of a fetched document. -/
abbrev Document := List Block

/-- `"".join`-style concatenation of a list of strings. -/
def strJoin : List String → String
  | [] => ""
  | s :: rest => s ++ strJoin rest

/-- The `textRun` contents collected from a paragraph's elements, in order. -/
def runTexts (elems : Para) : List String :=
  elems.filterMap id

/-- `" ".join(cell_text).strip()` for one cell: the run texts of all the
cell's paragraphs, flattened in order, joined by single spaces, stripped. -/
def joinSep (sep : String) : List String → String
  | [] => ""
  | [s] => s
  | s :: rest => s ++ sep ++ joinSep sep rest

/-- Flattened text of one table cell. -/
def cellText (cell : Cell) : String :=
  pyStrip (joinSep " " (cell.map runTexts).flatten)

/-- The strings a table row appends to the `text` accumulator: nothing when
`row_texts` is empty, otherwise the tab-joined cell texts and a newline. -/
def tableRowChunks (row : List Cell) : List String :=
  let rts := row.map cellText
  if rts.isEmpty then [] else [joinSep "\t" rts, "\n"]

/-- The strings one body element appends to the `text` accumulator. -/
def blockChunks : Block → List String
  | Block.para elems => runTexts elems
  | Block.table rows => (rows.map tableRowChunks).flatten
  | Block.other => []

/-- The full `text` accumulator for a document. -/
def flattenChunks (doc : Document) : List String :=
  (doc.map blockChunks).flatten

/-- `"".join(text).strip()`: the value `read_doc_text` returns on success. -/
def docText (doc : Document) : String :=
  pyStrip (strJoin (flattenChunks doc))

/-! ## Fetching -/

/-- The document service as seen by `read_doc_text`: fetching a document
either yields its body content or raises/fails with a message. -/
abbrev Fetch := String → Except String Document

/-- `read_doc_text(docs_service, doc_id)`: on success the flattened text; on
`HttpError` or any other exception the handler prints the message to stderr
and returns `None` — the message never reaches the caller. -/
def read_doc_text (fetch : Fetch) (docId : String) : Option String :=
  match fetch docId with
  | Except.ok doc => some (docText doc)
  | Except.error _ => none

/-! ## Per-row pipeline of `main` -/

def INVALID_LINK : String := "INVALID LINK"

def ERROR_EMPTY : String := "ERROR: Failed to extract content"

/-- The output value computed for one row of the loop in `main`: `none` models
a cell with no hyperlink; a blank link gives `""`; an unresolvable link gives
`"INVALID LINK"`; otherwise the document is fetched and a falsy result
(`None` or `""`) gives the extraction-error marker.  `read_doc_text` catches
every exception itself, so the `except` branch of the loop body never runs. -/
def rowValue (fetch : Fetch) (hyperlink : Option String) : String :=
  match hyperlink with
  | none => ""
  | some h =>
    let link := pyStrip h
    if link.data.isEmpty then ""
    else
      match extract_doc_id (some link) with
      | none => INVALID_LINK
      | some docId =>
        match read_doc_text fetch docId with
        | some text => if text.data.isEmpty then ERROR_EMPTY else text
        | none => ERROR_EMPTY

/-- `BATCH_SIZE = 5`. -/
def BATCH_SIZE : Nat := 5

/-- The loop of `main` over `enumerate(hyperlinks, start=2)`, returning the
list of batches passed to `flush_updates`, in order: the pending list grows by
one `(row, value)` pair per row, is flushed (and reset) whenever its length
reaches `BATCH_SIZE`, and a final non-empty pending list is flushed once after
the loop. -/
def runRows (fetch : Fetch) : Nat → List (Option String) → List (Nat × String) →
    List (List (Nat × String))
  | _, [], pending => if pending.isEmpty then [] else [pending]
  | i, link :: rest, pending =>
    let upd := pending ++ [(i, rowValue fetch link)]
    if BATCH_SIZE ≤ upd.length then upd :: runRows fetch (i + 1) rest []
    else runRows fetch (i + 1) rest upd

/-- The batches flushed by a run of `main` on a given hyperlink column. -/
def mainFlushes (fetch : Fetch) (links : List (Option String)) :
    List (List (Nat × String)) :=
  runRows fetch 2 links []

/-- `enumerate(l, start=i)`. -/
def enumFrom {α : Type} : Nat → List α → List (Nat × α)
  | _, [] => []
  | i, a :: rest => (i, a) :: enumFrom (i + 1) rest

/-! ## Batched writer `flush_updates` -/

/-- The sheet service as seen by `flush_updates`: whether the batched
`batchUpdate` call succeeds for a given batch, and whether the fallback
single-cell `update` call succeeds for a given row and value. -/
structure WriteOracle where
  batchOk : List (Nat × String) → Bool
  singleOk : Nat → String → Bool

/-- One observable write call issued by `flush_updates`. -/
inductive WriteEvent where
  | batch (updates : List (Nat × String)) (ok : Bool)
  | single (row : Nat) (value : String) (ok : Bool)
deriving DecidableEq

/-- `flush_updates(updates_list)`: nothing for an empty list; otherwise one
batched write, and — only if it fails — one individual write per pending pair,
in order, each attempted exactly once whatever its outcome. -/
def flush_updates (o : WriteOracle) (updatesList : List (Nat × String)) :
    List WriteEvent :=
  if updatesList.isEmpty then []
  else if o.batchOk updatesList then [WriteEvent.batch updatesList true]
  else
    WriteEvent.batch updatesList false ::
      updatesList.map (fun p => WriteEvent.single p.1 p.2 (o.singleOk p.1 p.2))

/-- The row of an individual (fallback) write event. -/
def singleRow : WriteEvent → Option Nat
  | WriteEvent.single r _ _ => some r
  | _ => none

/-! ## Hyperlink discovery of `get_hyperlinks_from_column` -/

/-- `userEnteredFormat.textFormat` of a cell: `link = some u?` when the `link`
key is present, `u?` being its optional `uri` value. -/
structure TextFormat where
  link : Option (Option String)
deriving DecidableEq

/-- One cell of the grid data: the `userEnteredFormat.textFormat` chain (if
fully present), the cell-level `hyperlink` key, and `formattedValue`. -/
structure SheetCell where
  textFormat : Option TextFormat
  hyperlink : Option String
  formattedValue : Option String
deriving DecidableEq

/-- Python truthiness of the running `hyperlink` variable: `None` and `""`
are falsy. -/
def optTruthy : Option String → Bool
  | none => false
  | some s => !s.data.isEmpty

/-- The value the first probe assigns: `textFormat.link.get('uri')` when the
whole chain is present, else the variable stays `None`. -/
def getUri (cell : SheetCell) : Option String :=
  match cell.textFormat with
  | none => none
  | some tf =>
    match tf.link with
    | none => none
    | some uri => uri

/-- The hyperlink chosen for one cell, following the four probes of the code
in order: text-format link URI; the `hyperlink` key; the (identical)
text-format link URI again; finally `formattedValue`, used only when truthy
and containing `http://` or `https://`. -/
def cellLink (cell : SheetCell) : Option String :=
  let h1 := getUri cell
  let h2 := if !optTruthy h1 && cell.hyperlink.isSome then cell.hyperlink else h1
  let h3 :=
    if !optTruthy h2 then
      match cell.textFormat with
      | some tf =>
        match tf.link with
        | some uri => uri
        | none => h2
      | none => h2
    else h2
  if !optTruthy h3 then
    match cell.formattedValue with
    | some v =>
      if !v.data.isEmpty &&
          (listContains "http://".data v.data || listContains "https://".data v.data) then
        some v
      else h3
    | none => h3
  else h3

/-- Modelled from the spec, for the table-rendering refinement: for each row,
join the cells' flattened texts with a horizontal tab and append a newline. -/
def specTableText (rows : List (List Cell)) : String :=
  strJoin (rows.map (fun row => joinSep "\t" (row.map cellText) ++ "\n"))

/-! ## Helper lemmas -/

theorem strJoin_append (a b : List String) :
    strJoin (a ++ b) = strJoin a ++ strJoin b := by
  induction a with
  | nil =>
    have h : ∀ s : String, "" ++ s = s := fun s => by
      apply String.ext
      rw [String.data_append]
      rfl
    simp [strJoin, h]
  | cons s rest ih =>
    simp [strJoin, ih, String.append_assoc]

theorem dropLeadingSpace_cons_of_not {c : Char} (t : List Char)
    (h : isSpace c = false) : dropLeadingSpace (c :: t) = c :: t := by
  simp [dropLeadingSpace, h]

theorem dropLeadingSpace_decomp (l : List Char) :
    ∃ pre, pre.all isSpace = true ∧ l = pre ++ dropLeadingSpace l := by
  induction l with
  | nil => exact ⟨[], rfl, rfl⟩
  | cons c t ih =>
    by_cases hc : isSpace c = true
    · obtain ⟨pre, hall, heq⟩ := ih
      refine ⟨c :: pre, ?_, ?_⟩
      · simp [List.all_cons, hc, hall]
      · simpa [dropLeadingSpace, hc] using congrArg (c :: ·) heq
    · refine ⟨[], rfl, ?_⟩
      simp at hc
      simp [dropLeadingSpace, hc]

theorem stripChars_decomp (l : List Char) :
    ∃ pre post, pre.all isSpace = true ∧ post.all isSpace = true ∧
      l = pre ++ stripChars l ++ post := by
  obtain ⟨pre, hpre, hl⟩ := dropLeadingSpace_decomp l
  obtain ⟨q, hq, hrev⟩ := dropLeadingSpace_decomp (dropLeadingSpace l).reverse
  refine ⟨pre, q.reverse, hpre, ?_, ?_⟩
  · simpa using hq
  · have h1 : dropLeadingSpace l = stripChars l ++ q.reverse := by
      have h2 := congrArg List.reverse hrev
      simpa [stripChars, List.reverse_append] using h2
    calc l = pre ++ dropLeadingSpace l := hl
    _ = pre ++ (stripChars l ++ q.reverse) := by rw [h1]
    _ = pre ++ stripChars l ++ q.reverse := by rw [List.append_assoc]

theorem idChar_not_space (c : Char) (h : isIdChar c = true) : isSpace c = false := by
  cases hsp : isSpace c with
  | false => rfl
  | true =>
    exfalso
    simp only [isSpace, Bool.or_eq_true, beq_iff_eq] at hsp
    rcases hsp with ((((h1 | h1) | h1) | h1) | h1) | h1 <;> subst h1 <;>
      exact absurd h (by decide)

theorem dropLeadingSpace_of_no_space (l : List Char)
    (h : ∀ c ∈ l, isSpace c = false) : dropLeadingSpace l = l := by
  cases l with
  | nil => rfl
  | cons c t => exact dropLeadingSpace_cons_of_not t (h c (by simp))

theorem stripChars_of_all_id (l : List Char) (h : l.all isIdChar = true) :
    stripChars l = l := by
  have hns : ∀ c ∈ l, isSpace c = false := by
    intro c hc
    exact idChar_not_space c (by simpa using List.all_eq_true.mp h c hc)
  have h1 : dropLeadingSpace l = l := dropLeadingSpace_of_no_space l hns
  have h2 : dropLeadingSpace l.reverse = l.reverse := by
    refine dropLeadingSpace_of_no_space _ ?_
    intro c hc
    exact hns c (by simpa using hc)
  simp [stripChars, h1, h2]

theorem listStartsWith_append_self (l r : List Char) :
    listStartsWith l (l ++ r) = true := by
  induction l with
  | nil => rfl
  | cons c t ih => simp [listStartsWith, ih]

theorem takeIdRun_append_stop (l : List Char) (c : Char) (r : List Char)
    (hl : l.all isIdChar = true) (hc : isIdChar c = false) :
    takeIdRun (l ++ c :: r) = l := by
  induction l with
  | nil => simp [takeIdRun, hc]
  | cons d t ih =>
    simp only [List.all_cons, Bool.and_eq_true] at hl
    simp [takeIdRun, hl.1, ih hl.2]

theorem searchIdAfter_cons_not (pat : List Char) (c : Char) (t : List Char)
    (h : listStartsWith pat (c :: t) = false) :
    searchIdAfter pat (c :: t) = searchIdAfter pat t := by
  simp [searchIdAfter, h]

theorem searchIdAfter_of_no_head (p : Char) (ps l : List Char)
    (hp : isIdChar p = false) (hl : l.all isIdChar = true) :
    searchIdAfter (p :: ps) l = none := by
  induction l with
  | nil => rfl
  | cons c t ih =>
    simp only [List.all_cons, Bool.and_eq_true] at hl
    have hne : (p == c) = false := by
      cases hbe : p == c with
      | false => rfl
      | true =>
        exfalso
        have : p = c := eq_of_beq hbe
        rw [this] at hp
        rw [hp] at hl
        exact Bool.noConfusion hl.1
    rw [searchIdAfter_cons_not]
    · exact ih hl.2
    · simp [listStartsWith, hne]

/-! ## Claim C1: error marker for fetch failures -/

/-- C1, counterexample: the fetch for the document behind a valid link fails
with the message `boom`, yet the row's output value is the generic
`"ERROR: Failed to extract content"` marker, not an `"ERROR: boom"` marker
carrying the failure's own message. -/
theorem c1_counterexample :
    rowValue (fun _ => Except.error "boom")
        (some "https://docs.google.com/document/d/abc/edit") =
      "ERROR: Failed to extract content" ∧
    ("ERROR: Failed to extract content" : String) ≠ "ERROR: boom" := by
  constructor
  · rfl
  · decide

/-- C1, amended: a fetch failure or exception is caught inside
`read_doc_text`, which returns no text, so the row's output value is the same
`"ERROR: Failed to extract content"` marker that an empty fetched document
produces — fetch failure and empty content are conflated into one marker, for
every failure message. -/
theorem c1_fetch_failure_conflated (e : String) :
    rowValue (fun _ => Except.error e)
        (some "https://docs.google.com/document/d/abc/edit") = ERROR_EMPTY ∧
    rowValue (fun _ => Except.ok [])
        (some "https://docs.google.com/document/d/abc/edit") = ERROR_EMPTY := by
  exact ⟨rfl, rfl⟩

/-! ## Claim C2: newline normalization -/

/-- C2, counterexample: a document whose flattened content is
`"A\n\n\n\nB"` (four consecutive newlines) is returned with all four
newlines intact — the run of three-or-more newlines is not collapsed to
two. -/
theorem c2_counterexample :
    docText [Block.para [some "A\n\n\n\n"], Block.para [some "B"]] =
      "A\n\n\n\nB" ∧
    listContains ['\n', '\n', '\n']
        (docText [Block.para [some "A\n\n\n\n"], Block.para [some "B"]]).data =
      true := by
  decide

/-- C2, amended: the only normalization applied to the flattened text is a
trim of leading and trailing whitespace: the returned text is always an
interior segment of the raw joined chunks, with only whitespace removed at
either end, so interior newline runs (such as four consecutive newlines) are
preserved unchanged. -/
theorem c2_trim_only :
    docText [Block.para [some "A\n\n\n\n"], Block.para [some "B"]] =
      "A\n\n\n\nB" ∧
    ∀ doc : Document, ∃ pre post : List Char,
      pre.all isSpace = true ∧ post.all isSpace = true ∧
      (strJoin (flattenChunks doc)).data = pre ++ (docText doc).data ++ post := by
  refine ⟨by decide, ?_⟩
  intro doc
  obtain ⟨pre, post, h1, h2, h3⟩ := stripChars_decomp (strJoin (flattenChunks doc)).data
  exact ⟨pre, post, h1, h2, h3⟩

/-! ## Claim C3: paragraph separation -/

/-- C3, counterexample: flattening a document of two paragraphs whose run
texts are the literal strings `"Hello"` and `"World"` returns `"HelloWorld"`,
not `"Hello\nWorld"` — no newline is inserted between paragraphs. -/
theorem c3_counterexample :
    docText [Block.para [some "Hello"], Block.para [some "World"]] =
      "HelloWorld" ∧
    ("HelloWorld" : String) ≠ "Hello\nWorld" := by
  decide

/-- C3, amended: within a paragraph the run texts are concatenated in order
with no added separator, and no separator is inserted between paragraphs
either — two paragraphs flatten to the trimmed plain concatenation of their
run texts, so `"Hello"` and `"World"` give `"HelloWorld"`, while a newline
appears only when a run itself carries one, as with `"Hello\n"` and
`"World"`. -/
theorem c3_no_separator :
    docText [Block.para [some "Hello"], Block.para [some "World"]] =
      "HelloWorld" ∧
    (∀ rs1 rs2 : Para,
      docText [Block.para rs1, Block.para rs2] =
        pyStrip (strJoin (runTexts rs1) ++ strJoin (runTexts rs2))) ∧
    docText [Block.para [some "Hello\n"], Block.para [some "World"]] =
      "Hello\nWorld" := by
  refine ⟨by decide, ?_, by decide⟩
  intro rs1 rs2
  have h : flattenChunks [Block.para rs1, Block.para rs2] =
      runTexts rs1 ++ runTexts rs2 := by
    simp [flattenChunks, blockChunks]
  rw [docText, h, strJoin_append]

/-! ## Claim C9: table rendering -/

/-- The single-row demonstration table with cell texts `A` and `B`. -/
def demoTable : List (List Cell) := [[[[some "A"]], [[some "B"]]]]

/-- C9, counterexample: a document consisting solely of one table row with
cells `A` and `B` flattens to `"A\tB"` — the final trim removes the trailing
newline, so the returned text does not contain `"A\tB\n"`. -/
theorem c9_counterexample :
    docText [Block.table demoTable] = "A\tB" ∧
    listContains "A\tB\n".data (docText [Block.table demoTable]).data =
      false := by
  decide

/-- C9, amended: each table row with at least one cell is rendered, before
the final trim, as the cells' flattened texts joined by a horizontal tab with
a newline appended, inline at the table's position: the chunk text of a table
equals the spec-side rendering, and the pre-trim flattening of the
demonstration table is exactly `"A\tB\n"`.  The final trim can remove the
trailing newline (a document consisting solely of the table returns
`"A\tB"`); as a concrete instance where it survives, a document in which the
table is followed by a paragraph with run text `"X"` returns `"A\tB\nX"`. -/
theorem c9_table_rendering (rows : List (List Cell))
    (hrows : ∀ row ∈ rows, row ≠ ([] : List Cell)) :
    strJoin (blockChunks (Block.table rows)) = specTableText rows ∧
    strJoin (flattenChunks [Block.table demoTable]) = "A\tB\n" ∧
    docText [Block.table demoTable, Block.para [some "X"]] = "A\tB\nX" := by
  refine ⟨?_, by decide, by decide⟩
  induction rows with
  | nil => rfl
  | cons row rest ih =>
    have hrow : row ≠ [] := hrows row (by simp)
    have hrts : (row.map cellText).isEmpty = false := by
      cases row with
      | nil => exact absurd rfl hrow
      | cons a b => rfl
    have hrest : strJoin (blockChunks (Block.table rest)) = specTableText rest :=
      ih (fun r hr => hrows r (by simp [hr]))
    simp only [blockChunks] at hrest
    simp only [blockChunks, specTableText, List.map_cons, List.flatten_cons,
      tableRowChunks, hrts, Bool.false_eq_true, if_false, strJoin,
      List.append_eq, List.nil_append]
    rw [hrest, ← String.append_assoc]
    rfl

/-- C9, witness for the amended theorem at the demonstration table. -/
theorem c9_table_rendering_witness :
    (∀ row ∈ demoTable, row ≠ ([] : List Cell)) ∧
    (strJoin (blockChunks (Block.table demoTable)) = specTableText demoTable ∧
      strJoin (flattenChunks [Block.table demoTable]) = "A\tB\n" ∧
      docText [Block.table demoTable, Block.para [some "X"]] = "A\tB\nX") :=
  ⟨by decide, c9_table_rendering demoTable (by decide)⟩

theorem dropLeadingSpace_all_space (l : List Char) (h : l.all isSpace = true) :
    dropLeadingSpace l = [] := by
  induction l with
  | nil => rfl
  | cons c t ih =>
    simp only [List.all_cons, Bool.and_eq_true] at h
    simp [dropLeadingSpace, h.1, ih h.2]

theorem listContains_cons_ne_nil (c : Char) (cs l : List Char)
    (h : listContains (c :: cs) l = true) : l.isEmpty = false := by
  cases l with
  | nil => exact absurd h (by simp [listContains])
  | cons d t => rfl

theorem listStartsWith_sub (needle l : List Char)
    (h : listStartsWith needle l = true) : ∀ c ∈ needle, c ∈ l := by
  induction needle generalizing l with
  | nil => intro c hc; exact absurd hc (by simp)
  | cons p ps ih =>
    cases l with
    | nil => exact absurd h (by simp [listStartsWith])
    | cons d t =>
      simp only [listStartsWith, Bool.and_eq_true, beq_iff_eq] at h
      intro c hc
      rcases List.mem_cons.mp hc with hc1 | hc1
      · rw [hc1, h.1]; exact List.mem_cons_self d t
      · exact List.mem_cons_of_mem d (ih t h.2 c hc1)

theorem listContains_sub (needle l : List Char)
    (h : listContains needle l = true) : ∀ c ∈ needle, c ∈ l := by
  induction l with
  | nil =>
    intro c hc
    have : needle = [] := by
      simpa [listContains, List.isEmpty_iff] using h
    rw [this] at hc
    exact absurd hc (by simp)
  | cons d t ih =>
    simp only [listContains, Bool.or_eq_true] at h
    intro c hc
    rcases h with h1 | h1
    · exact listStartsWith_sub needle (d :: t) h1 c hc
    · exact List.mem_cons_of_mem d (ih h1 c hc)

/-- Every character of a string whose characters are all identifier-safe is
identifier-safe, so the string contains neither `:` nor `/`, hence no
`http://` or `https://` substring. -/
theorem no_http_of_all_id (l : List Char) (h : l.all isIdChar = true) :
    listContains "http://".data l = false ∧
    listContains "https://".data l = false := by
  constructor
  · cases hc : listContains "http://".data l with
    | false => rfl
    | true =>
      exfalso
      have hm : ':' ∈ l := listContains_sub _ l hc ':' (by decide)
      have : isIdChar ':' = true := List.all_eq_true.mp h ':' hm
      exact absurd this (by decide)
  · cases hc : listContains "https://".data l with
    | false => rfl
    | true =>
      exfalso
      have hm : ':' ∈ l := listContains_sub _ l hc ':' (by decide)
      have : isIdChar ':' = true := List.all_eq_true.mp h ':' hm
      exact absurd this (by decide)

/-- A trivial document service used to instantiate witnesses: every fetch
succeeds with an empty document body. -/
def demoFetch : Fetch := fun _ => Except.ok []

/-! ## Claim C5: blank inputs versus invalid links -/

/-- C5: an absent cell value, an empty string and a whitespace-only string all
fail resolution, and each produces the output value `""` through the row
pipeline, while a non-blank unrecognized string produces the distinct
`"INVALID LINK"` marker. -/
theorem c5_blank_and_invalid (fetch : Fetch) (s : String)
    (hs : s.data.all isSpace = true) :
    extract_doc_id none = none ∧
    extract_doc_id (some "") = none ∧
    extract_doc_id (some s) = none ∧
    rowValue fetch none = "" ∧
    rowValue fetch (some "") = "" ∧
    rowValue fetch (some s) = "" ∧
    rowValue fetch (some "???") = INVALID_LINK ∧
    INVALID_LINK ≠ "" := by
  have hstrip : stripChars s.data = [] := by
    rw [stripChars, dropLeadingSpace_all_space _ hs]
    rfl
  have hps : pyStrip s = String.mk [] := by rw [pyStrip, hstrip]
  refine ⟨rfl, by decide, ?_, rfl, rfl, ?_, rfl, by decide⟩
  · cases he : s.data.isEmpty with
    | true => simp [extract_doc_id, he]
    | false =>
      simp only [extract_doc_id, he, Bool.false_eq_true, if_false, hps]
      decide
  · simp only [rowValue, hps]
    rfl

/-- C5, witness at the whitespace-only string `" "`. -/
theorem c5_blank_and_invalid_witness :
    (" ".data.all isSpace = true) ∧
    (extract_doc_id none = none ∧
      extract_doc_id (some "") = none ∧
      extract_doc_id (some " ") = none ∧
      rowValue demoFetch none = "" ∧
      rowValue demoFetch (some "") = "" ∧
      rowValue demoFetch (some " ") = "" ∧
      rowValue demoFetch (some "???") = INVALID_LINK ∧
      INVALID_LINK ≠ "") :=
  ⟨by decide, c5_blank_and_invalid demoFetch " " (by decide)⟩

/-! ## Claim C10: link discovery priority chain -/

/-- C10: the link handed to the resolver is chosen by the fixed priority
chain text-format URI, then cell-level hyperlink, then formatted value — the
latter only when it contains `http://` or `https://` — so a cell displaying a
bare document identifier with no hyperlink metadata yields no link, and hence
the empty output value, even though the resolver accepts bare identifiers. -/
theorem c10_link_priority (fetch : Fetch) (bareId : String)
    (hid : bareId.data.all isIdChar = true)
    (h25 : 25 ≤ bareId.data.length) (h60 : bareId.data.length ≤ 60) :
    (∀ (cell : SheetCell) (uri : String), getUri cell = some uri →
      uri.data.isEmpty = false → cellLink cell = some uri) ∧
    (∀ (cell : SheetCell) (h : String), optTruthy (getUri cell) = false →
      cell.hyperlink = some h → h.data.isEmpty = false → cellLink cell = some h) ∧
    (∀ v : String, listContains "http://".data v.data = true →
      cellLink ⟨none, none, some v⟩ = some v) ∧
    (∀ v : String, listContains "http://".data v.data = false →
      listContains "https://".data v.data = false →
      cellLink ⟨none, none, some v⟩ = none) ∧
    cellLink ⟨none, none, some bareId⟩ = none ∧
    rowValue fetch (cellLink ⟨none, none, some bareId⟩) = "" ∧
    extract_doc_id (some bareId) = some bareId := by
  have hcl : ∀ v : String, listContains "http://".data v.data = false →
      listContains "https://".data v.data = false →
      cellLink ⟨none, none, some v⟩ = none := by
    intro v h1 h2
    simp [cellLink, getUri, optTruthy, h1, h2]
  have hbare : cellLink ⟨none, none, some bareId⟩ = none :=
    hcl bareId (no_http_of_all_id _ hid).1 (no_http_of_all_id _ hid).2
  refine ⟨?_, ?_, ?_, hcl, hbare, ?_, ?_⟩
  · intro cell uri hguri hne
    simp [cellLink, hguri, optTruthy, hne]
  · intro cell h hfal hhl hne
    rcases hg : getUri cell with _ | u
    · simp [cellLink, hg, hhl, optTruthy, hne]
    · rw [hg] at hfal
      simp only [optTruthy, Bool.not_eq_false'] at hfal
      simp [cellLink, hg, hhl, optTruthy, hne, hfal]
  · intro v hcont
    have hne : v.data.isEmpty = false := by
      have : "http://".data = 'h' :: "ttp://".data := rfl
      rw [this] at hcont
      exact listContains_cons_ne_nil _ _ _ hcont
    simp [cellLink, getUri, optTruthy, hne, hcont]
  · rw [hbare]
    rfl
  · have hne : bareId.data.isEmpty = false := by
      cases hd : bareId.data with
      | nil => rw [hd] at h25; exact absurd h25 (by decide)
      | cons a t => rfl
    have hps : pyStrip bareId = bareId := by
      rw [pyStrip, stripChars_of_all_id _ hid]
    have hsd : searchIdAfter "/document/d/".data bareId.data = none := by
      have hd : "/document/d/".data = '/' :: "document/d/".data := rfl
      rw [hd]
      exact searchIdAfter_of_no_head '/' _ _ (by decide) hid
    have hsf : searchIdAfter "/file/d/".data bareId.data = none := by
      have hd : "/file/d/".data = '/' :: "file/d/".data := rfl
      rw [hd]
      exact searchIdAfter_of_no_head '/' _ _ (by decide) hid
    have hmb : matchBareId bareId.data = true := by
      simp [matchBareId, hid]
      exact ⟨h25, h60⟩
    simp [extract_doc_id, hne, hps, hsd, hsf, hmb]

/-- C10, witness at a 25-character bare identifier. -/
theorem c10_link_priority_witness :
    ("abcdefghijklmnopqrstuvwxy".data.all isIdChar = true) ∧
    (25 ≤ "abcdefghijklmnopqrstuvwxy".data.length) ∧
    ("abcdefghijklmnopqrstuvwxy".data.length ≤ 60) ∧
    (cellLink ⟨none, none, some "abcdefghijklmnopqrstuvwxy"⟩ = none ∧
      rowValue demoFetch (cellLink ⟨none, none, some "abcdefghijklmnopqrstuvwxy"⟩) = "" ∧
      extract_doc_id (some "abcdefghijklmnopqrstuvwxy") =
        some "abcdefghijklmnopqrstuvwxy") :=
  ⟨by decide, by decide, by decide,
    ⟨(c10_link_priority demoFetch "abcdefghijklmnopqrstuvwxy" (by decide) (by decide)
        (by decide)).2.2.2.2.1,
      (c10_link_priority demoFetch "abcdefghijklmnopqrstuvwxy" (by decide) (by decide)
        (by decide)).2.2.2.2.2.1,
      (c10_link_priority demoFetch "abcdefghijklmnopqrstuvwxy" (by decide) (by decide)
        (by decide)).2.2.2.2.2.2⟩⟩

/-- The sequence of flush lengths produced by the loop, as a function of the
current pending count and the number of remaining rows. -/
def flushSizes : Nat → Nat → List Nat
  | p, 0 => if p = 0 then [] else [p]
  | p, n + 1 =>
    if BATCH_SIZE ≤ p + 1 then (p + 1) :: flushSizes 0 n else flushSizes (p + 1) n

/-! ## Loop lemmas for the batched writer -/

theorem runRows_flatten (fetch : Fetch) (ls : List (Option String)) :
    ∀ (i : Nat) (pending : List (Nat × String)),
      (runRows fetch i ls pending).flatten =
        pending ++ enumFrom i (ls.map (rowValue fetch)) := by
  induction ls with
  | nil =>
    intro i pending
    simp only [runRows, List.map_nil, enumFrom, List.append_nil]
    cases hp : pending.isEmpty with
    | true => simp [List.isEmpty_iff.mp hp]
    | false => simp
  | cons l rest ih =>
    intro i pending
    simp only [runRows, List.map_cons, enumFrom]
    by_cases hb : BATCH_SIZE ≤ (pending ++ [(i, rowValue fetch l)]).length
    · rw [if_pos hb]
      simp only [List.flatten_cons]
      rw [ih (i + 1) []]
      simp [List.append_assoc]
    · rw [if_neg hb, ih (i + 1) (pending ++ [(i, rowValue fetch l)])]
      simp [List.append_assoc]

theorem mainFlushes_flatten (fetch : Fetch) (links : List (Option String)) :
    (mainFlushes fetch links).flatten = enumFrom 2 (links.map (rowValue fetch)) := by
  simpa [mainFlushes] using runRows_flatten fetch links 2 []

theorem enumFrom_chain {α : Type} (l : List α) :
    ∀ i : Nat, List.Chain' (fun p q : Nat × α => p.1 < q.1) (enumFrom i l) := by
  induction l with
  | nil => intro i; simp [enumFrom]
  | cons a rest ih =>
    intro i
    cases rest with
    | nil => simp [enumFrom]
    | cons b rs =>
      have hstep : enumFrom i (a :: b :: rs) =
          (i, a) :: enumFrom (i + 1) (b :: rs) := rfl
      rw [hstep]
      have h2 : enumFrom (i + 1) (b :: rs) =
          (i + 1, b) :: enumFrom (i + 2) rs := rfl
      rw [h2]
      rw [List.chain'_cons]
      refine ⟨by omega, ?_⟩
      rw [← h2]
      exact ih (i + 1)

theorem runRows_sizes (fetch : Fetch) (ls : List (Option String)) :
    ∀ (i : Nat) (pending : List (Nat × String)),
      (runRows fetch i ls pending).map List.length =
        flushSizes pending.length ls.length := by
  induction ls with
  | nil =>
    intro i pending
    simp only [runRows, List.length_nil, flushSizes]
    cases hp : pending.isEmpty with
    | true => simp [List.isEmpty_iff.mp hp]
    | false =>
      have hlen : pending.length ≠ 0 := by
        intro h0
        rw [List.length_eq_zero.mp h0] at hp
        exact Bool.noConfusion hp
      simp [hlen]
  | cons l rest ih =>
    intro i pending
    simp only [runRows, List.length_cons, flushSizes]
    have hlen : (pending ++ [(i, rowValue fetch l)]).length = pending.length + 1 := by
      simp
    by_cases hb : BATCH_SIZE ≤ pending.length + 1
    · rw [if_pos (by rw [hlen]; exact hb), if_pos hb]
      simp only [List.map_cons]
      rw [ih (i + 1) [], hlen]
      rfl
    · rw [if_neg (by rw [hlen]; exact hb), if_neg hb]
      rw [ih (i + 1) (pending ++ [(i, rowValue fetch l)]), hlen]

theorem runRows_ne_nil (fetch : Fetch) (ls : List (Option String)) :
    ∀ (i : Nat) (pending : List (Nat × String)) (b : List (Nat × String)),
      b ∈ runRows fetch i ls pending → b ≠ [] := by
  induction ls with
  | nil =>
    intro i pending b hb
    simp only [runRows] at hb
    cases hp : pending.isEmpty with
    | true => rw [hp] at hb; simp at hb
    | false =>
      rw [hp] at hb
      simp only [if_false, Bool.false_eq_true, List.mem_singleton] at hb
      rw [hb]
      intro h0
      rw [h0] at hp
      exact Bool.noConfusion hp
  | cons l rest ih =>
    intro i pending b hb
    simp only [runRows] at hb
    by_cases hbs : BATCH_SIZE ≤ (pending ++ [(i, rowValue fetch l)]).length
    · rw [if_pos hbs] at hb
      rcases List.mem_cons.mp hb with h1 | h1
      · rw [h1]
        simp
      · exact ih (i + 1) [] b h1
    · rw [if_neg hbs] at hb
      exact ih (i + 1) (pending ++ [(i, rowValue fetch l)]) b hb

theorem mainFlushes_fst_nodup (fetch : Fetch) (links : List (Option String)) :
    (((mainFlushes fetch links).flatten).map Prod.fst).Nodup := by
  rw [mainFlushes_flatten]
  have hchain := enumFrom_chain (links.map (rowValue fetch)) 2
  have hpw : List.Pairwise (fun p q : Nat × String => p.1 < q.1)
      (enumFrom 2 (links.map (rowValue fetch))) := by
    haveI : IsTrans (Nat × String) (fun p q => p.1 < q.1) :=
      ⟨fun _ _ _ h1 h2 => Nat.lt_trans h1 h2⟩
    rw [← List.chain'_iff_pairwise]
    exact hchain
  exact List.Pairwise.map Prod.fst (fun a b h => Nat.ne_of_lt h) hpw

theorem filterMap_singleRow (l : List (Nat × String)) (g : Nat → String → Bool) :
    List.filterMap singleRow
        (l.map (fun p => WriteEvent.single p.1 p.2 (g p.1 p.2))) =
      l.map Prod.fst := by
  induction l with
  | nil => rfl
  | cons p rest ih => simp [singleRow, ih]

/-! ## Claim C6: one output value per row, in increasing row order -/

/-- C6: for every fetch behaviour (including failing fetches, which therefore
never abort later rows), the pairs flushed over a whole run are exactly one
`(row, value)` pair per input row, enumerated in order starting at row 2, and
the written sequence is strictly increasing in row index. -/
theorem c6_one_value_per_row (fetch : Fetch) (links : List (Option String)) :
    (mainFlushes fetch links).flatten = enumFrom 2 (links.map (rowValue fetch)) ∧
    List.Chain' (fun p q : Nat × String => p.1 < q.1)
      ((mainFlushes fetch links).flatten) := by
  refine ⟨mainFlushes_flatten fetch links, ?_⟩
  rw [mainFlushes_flatten]
  exact enumFrom_chain (links.map (rowValue fetch)) 2

/-! ## Claim C7: flush threshold of 5 and final flush -/

/-- C7: with the fixed threshold of 5, a 12-row run flushes exactly 3 batches
of sizes 5, 5 and 2, and the flushed pairs are still exactly one value per
row in order. -/
theorem c7_batch_sizes (fetch : Fetch) (links : List (Option String))
    (h : links.length = 12) :
    (mainFlushes fetch links).map List.length = [5, 5, 2] ∧
    (mainFlushes fetch links).flatten = enumFrom 2 (links.map (rowValue fetch)) := by
  constructor
  · rw [mainFlushes, runRows_sizes]
    rw [show (([] : List (Nat × String))).length = 0 from rfl, h]
    decide
  · exact mainFlushes_flatten fetch links

/-- C7, witness at 12 rows with no links. -/
theorem c7_batch_sizes_witness :
    (List.replicate 12 (none : Option String)).length = 12 ∧
    (mainFlushes demoFetch (List.replicate 12 none)).map List.length = [5, 5, 2] :=
  ⟨by decide, (c7_batch_sizes demoFetch (List.replicate 12 none) (by decide)).1⟩

/-! ## Claim C8: per-row fallback after a failed batch write -/

/-- C8: when the batched write of a flushed batch fails, the individual
fallback attempts are exactly the batch's rows, once each and in order; the
rows within a batch are pairwise distinct, and a row of this batch appears in
no other flushed batch of the run — once its fallback attempt is done it is
never retried. -/
theorem c8_batch_fallback (o : WriteOracle) (fetch : Fetch)
    (links : List (Option String)) (b : List (Nat × String))
    (hb : b ∈ mainFlushes fetch links) (hfail : o.batchOk b = false) :
    (flush_updates o b).filterMap singleRow = b.map Prod.fst ∧
    (b.map Prod.fst).Nodup ∧
    (∀ b2 ∈ mainFlushes fetch links, b2 ≠ b →
      ∀ r ∈ b.map Prod.fst, r ∉ b2.map Prod.fst) := by
  have hne : b ≠ [] := runRows_ne_nil fetch links 2 [] b hb
  have hbe : b.isEmpty = false := by
    cases b with
    | nil => exact absurd rfl hne
    | cons x xs => rfl
  have hnodup := mainFlushes_fst_nodup fetch links
  rw [List.map_flatten] at hnodup
  have hsplit := List.nodup_flatten.mp hnodup
  have hpd : List.Pairwise
      (fun b1 b2 : List (Nat × String) =>
        List.Disjoint (b1.map Prod.fst) (b2.map Prod.fst))
      (mainFlushes fetch links) := List.pairwise_map.mp hsplit.2
  refine ⟨?_, ?_, ?_⟩
  · simp only [flush_updates, hbe, Bool.false_eq_true, if_false, hfail,
      List.filterMap_cons]
    have : singleRow (WriteEvent.batch b false) = none := rfl
    rw [this]
    exact filterMap_singleRow b o.singleOk
  · exact hsplit.1 (b.map Prod.fst) (List.mem_map_of_mem (List.map Prod.fst) hb)
  · intro b2 hb2 hne2 r hr
    have hsym : Symmetric
        (fun b1 b2 : List (Nat × String) =>
          List.Disjoint (b1.map Prod.fst) (b2.map Prod.fst)) :=
      fun _ _ h => h.symm
    have hdisj := List.Pairwise.forall hsym hpd hb hb2 (Ne.symm hne2)
    exact fun hmem => hdisj hr hmem

/-- The batch-write oracle used in the C8 witness: the batched call and every
individual call fail. -/
def demoOracle : WriteOracle := ⟨fun _ => false, fun _ _ => false⟩

/-- The single batch flushed for five linkless rows. -/
def demoBatch : List (Nat × String) := [(2, ""), (3, ""), (4, ""), (5, ""), (6, "")]

/-- C8, witness at a concrete run of five rows whose single batch write
fails. -/
theorem c8_batch_fallback_witness :
    demoBatch ∈ mainFlushes demoFetch (List.replicate 5 none) ∧
    demoOracle.batchOk demoBatch = false ∧
    ((flush_updates demoOracle demoBatch).filterMap singleRow =
        demoBatch.map Prod.fst ∧
      (demoBatch.map Prod.fst).Nodup ∧
      (∀ b2 ∈ mainFlushes demoFetch (List.replicate 5 none), b2 ≠ demoBatch →
        ∀ r ∈ demoBatch.map Prod.fst, r ∉ b2.map Prod.fst)) :=
  ⟨by decide, rfl,
    c8_batch_fallback demoOracle demoFetch (List.replicate 5 none) demoBatch
      (by decide) rfl⟩

/-! ## Scan lemmas for the URL patterns of `extract_doc_id` -/

theorem listStartsWith_append_false (pat : List Char) :
    ∀ t r : List Char, listStartsWith (pat.take t.length) t = false →
      listStartsWith pat (t ++ r) = false := by
  induction pat with
  | nil =>
    intro t r h
    exact absurd h (by simp [listStartsWith])
  | cons p ps ih =>
    intro t r h
    cases t with
    | nil => exact absurd h (by simp [listStartsWith])
    | cons c tc =>
      simp only [List.length_cons, List.take_succ_cons, listStartsWith,
        Bool.and_eq_false_iff] at h
      simp only [List.cons_append, listStartsWith, Bool.and_eq_false_iff]
      rcases h with h1 | h1
      · exact Or.inl h1
      · exact Or.inr (ih tc r h1)

theorem searchIdAfter_append_skip (pat : List Char) :
    ∀ t r : List Char,
      (∀ j, j < t.length → listStartsWith pat (t.drop j ++ r) = false) →
      searchIdAfter pat (t ++ r) = searchIdAfter pat r := by
  intro t
  induction t with
  | nil => intro r _; rfl
  | cons c tc ih =>
    intro r h
    have h0 : listStartsWith pat (c :: (tc ++ r)) = false := by
      have := h 0 (by simp)
      simpa using this
    rw [show (c :: tc) ++ r = c :: (tc ++ r) from rfl,
      searchIdAfter_cons_not pat c (tc ++ r) h0]
    refine ih r ?_
    intro j hj
    have := h (j + 1) (by simpa using Nat.succ_lt_succ hj)
    simpa using this

theorem searchIdAfter_front_found (p : Char) (ps X : List Char)
    (hne : takeIdRun X ≠ []) :
    searchIdAfter (p :: ps) ((p :: ps) ++ X) = some (takeIdRun X) := by
  have hsw : listStartsWith (p :: ps) (p :: (ps ++ X)) = true :=
    listStartsWith_append_self (p :: ps) X
  have hdrop : (p :: (ps ++ X)).drop (p :: ps).length = X :=
    List.drop_left (p :: ps) X
  show searchIdAfter (p :: ps) (p :: (ps ++ X)) = some (takeIdRun X)
  simp only [searchIdAfter, hsw, if_true, hdrop]
  cases htr : takeIdRun X with
  | nil => exact absurd htr hne
  | cons a t => simp

theorem searchIdAfter_skip_idRegion (p : Char) (ps : List Char)
    (hp : isIdChar p = false) :
    ∀ mid r : List Char, mid.all isIdChar = true →
      searchIdAfter (p :: ps) (mid ++ r) = searchIdAfter (p :: ps) r := by
  intro mid
  induction mid with
  | nil => intro r _; rfl
  | cons c tc ih =>
    intro r hmid
    simp only [List.all_cons, Bool.and_eq_true] at hmid
    have hne : (p == c) = false := by
      cases hbe : p == c with
      | false => rfl
      | true =>
        exfalso
        rw [eq_of_beq hbe] at hp
        rw [hp] at hmid
        exact Bool.noConfusion hmid.1
    rw [show (c :: tc) ++ r = c :: (tc ++ r) from rfl,
      searchIdAfter_cons_not _ _ _ (by simp [listStartsWith, hne])]
    exact ih r hmid.2

theorem listStartsWith_idrun_break (w : List Char) (c : Char) (w2 : List Char)
    (hc : isIdChar c = false) :
    ∀ id r : List Char, w.all isIdChar = true → id.all isIdChar = true →
      (∀ d, r.head? = some d → isIdChar d = false) →
      listStartsWith (c :: w2) r = false →
      listStartsWith (w ++ c :: w2) (id ++ r) = false := by
  induction w with
  | nil =>
    intro id r _ hid hr1 hr2
    cases id with
    | nil => simpa using hr2
    | cons a t =>
      simp only [List.all_cons, Bool.and_eq_true] at hid
      have hne : (c == a) = false := by
        cases hbe : c == a with
        | false => rfl
        | true =>
          exfalso
          rw [eq_of_beq hbe] at hc
          rw [hc] at hid
          exact Bool.noConfusion hid.1
      simp [listStartsWith, hne]
  | cons p ps ih =>
    intro id r hw hid hr1 hr2
    simp only [List.all_cons, Bool.and_eq_true] at hw
    cases id with
    | nil =>
      cases r with
      | nil => simp [listStartsWith]
      | cons d rd =>
        have hd : isIdChar d = false := hr1 d rfl
        have hne : (p == d) = false := by
          cases hbe : p == d with
          | false => rfl
          | true =>
            exfalso
            rw [eq_of_beq hbe] at hw
            rw [hd] at hw
            exact Bool.noConfusion hw.1
        simp [listStartsWith, hne]
    | cons a t =>
      simp only [List.all_cons, Bool.and_eq_true] at hid
      show listStartsWith (p :: (ps ++ c :: w2)) (a :: (t ++ r)) = false
      simp only [listStartsWith, Bool.and_eq_false_iff]
      cases hbe : p == a with
      | false => exact Or.inl rfl
      | true => exact Or.inr (ih t r hw.2 hid.2 hr1 hr2)

/-- Evaluation of `extract_doc_id` on a bare identifier-safe string: neither
URL pattern can match (the patterns start with `/`, which is not an
identifier character), so the result is governed by the 25-60 length test. -/
theorem extract_doc_id_bare_eval (id : String)
    (hid : id.data.all isIdChar = true) (hne : id.data.isEmpty = false) :
    extract_doc_id (some id) = if matchBareId id.data then some id else none := by
  have hps : pyStrip id = id := by
    rw [pyStrip, stripChars_of_all_id _ hid]
  have hsd : searchIdAfter "/document/d/".data id.data = none := by
    rw [show ("/document/d/" : String).data = '/' :: "document/d/".data from rfl]
    exact searchIdAfter_of_no_head '/' _ _ (by decide) hid
  have hsf : searchIdAfter "/file/d/".data id.data = none := by
    rw [show ("/file/d/" : String).data = '/' :: "file/d/".data from rfl]
    exact searchIdAfter_of_no_head '/' _ _ (by decide) hid
  simp [extract_doc_id, hne, hps, hsd, hsf]

/-- A character list that starts and ends with non-whitespace characters is
unchanged by stripping. -/
theorem stripChars_eq_self_of_edges (l : List Char) (c d : Char)
    (l1 l2 : List Char) (h1 : l = c :: l1) (h2 : l = l2 ++ [d])
    (hc : isSpace c = false) (hd : isSpace d = false) : stripChars l = l := by
  have ha : dropLeadingSpace l = l := by
    rw [h1]
    exact dropLeadingSpace_cons_of_not _ hc
  have hr : l.reverse = d :: l2.reverse := by
    rw [h2]
    simp
  rw [stripChars, ha, hr, dropLeadingSpace_cons_of_not _ hd, ← hr,
    List.reverse_reverse]

/-! ## Claim C4: resolution order and identifier shapes -/

/-- C4: resolution tries the `/document/d/<id>` pattern, then `/file/d/<id>`,
each returning exactly the identifier run; only if neither matched does it
accept a bare identifier-safe string of length 25-60, while lengths 24 and 61
fail; and a string containing both patterns resolves through the document
pattern even when the file pattern occurs earlier. -/
theorem c4_link_resolution (id : String) (hne : id.data ≠ [])
    (hid : id.data.all isIdChar = true) :
    extract_doc_id (some ("https://docs.google.com/document/d/" ++ id ++ "/edit")) =
      some id ∧
    extract_doc_id (some ("https://drive.google.com/file/d/" ++ id ++ "/view")) =
      some id ∧
    (25 ≤ id.data.length ∧ id.data.length ≤ 60 →
      extract_doc_id (some id) = some id) ∧
    (id.data.length = 24 ∨ id.data.length = 61 →
      extract_doc_id (some id) = none) ∧
    extract_doc_id (some "/file/d/AAA/document/d/BBB") = some "BBB" := by
  have hne' : id.data.isEmpty = false := by
    cases hd : id.data with
    | nil => exact absurd hd hne
    | cons a t => rfl
  refine ⟨?_, ?_, ?_, ?_, by decide⟩
  · -- document URL
    have hd1 : ("https://docs.google.com/document/d/" ++ id ++ "/edit").data =
        "https://docs.google.com".data ++
          ("/document/d/".data ++ (id.data ++ "/edit".data)) := by
      rw [String.data_append, String.data_append,
        show ("https://docs.google.com/document/d/" : String).data =
          "https://docs.google.com".data ++ "/document/d/".data from rfl,
        List.append_assoc, List.append_assoc]
    have hemp1 :
        ("https://docs.google.com/document/d/" ++ id ++ "/edit").data.isEmpty =
          false := by
      rw [hd1]; rfl
    have h1a : ("https://docs.google.com/document/d/" ++ id ++ "/edit").data =
        'h' :: ("ttps://docs.google.com".data ++
          ("/document/d/".data ++ (id.data ++ "/edit".data))) := by
      rw [hd1]; rfl
    have h1b : ("https://docs.google.com/document/d/" ++ id ++ "/edit").data =
        (("https://docs.google.com/document/d/".data ++ id.data) ++
          "/edi".data) ++ ['t'] := by
      rw [String.data_append, String.data_append,
        show ("/edit" : String).data = "/edi".data ++ ['t'] from rfl,
        ← List.append_assoc]
    have hstrip1 : stripChars
        ("https://docs.google.com/document/d/" ++ id ++ "/edit").data =
        ("https://docs.google.com/document/d/" ++ id ++ "/edit").data :=
      stripChars_eq_self_of_edges _ 'h' 't' _ _ h1a h1b (by decide) (by decide)
    have hps1 : pyStrip ("https://docs.google.com/document/d/" ++ id ++ "/edit") =
        "https://docs.google.com/document/d/" ++ id ++ "/edit" := by
      rw [pyStrip, hstrip1]
    have hrun1 : takeIdRun (id.data ++ "/edit".data) = id.data := by
      rw [show ("/edit" : String).data = '/' :: "edit".data from rfl]
      exact takeIdRun_append_stop _ _ _ hid (by decide)
    have hconc1 : ∀ j, j < 23 → listStartsWith
        ("/document/d/".data.take
          (("https://docs.google.com".data.drop j ++ "/document/d/".data).length))
        ("https://docs.google.com".data.drop j ++ "/document/d/".data) =
        false := by decide
    have hskip1 : ∀ j, j < ("https://docs.google.com".data).length →
        listStartsWith "/document/d/".data
          ("https://docs.google.com".data.drop j ++
            ("/document/d/".data ++ (id.data ++ "/edit".data))) = false := by
      intro j hj
      rw [← List.append_assoc]
      exact listStartsWith_append_false _ _ _ (hconc1 j hj)
    have hsd1 : searchIdAfter "/document/d/".data
        ("https://docs.google.com/document/d/" ++ id ++ "/edit").data =
        some id.data := by
      rw [hd1, searchIdAfter_append_skip _ _ _ hskip1,
        show ("/document/d/" : String).data = '/' :: "document/d/".data from rfl,
        searchIdAfter_front_found '/' _ _ (by rw [hrun1]; exact hne), hrun1]
    simp only [extract_doc_id, hemp1, Bool.false_eq_true, if_false, hps1, hsd1]
  · -- file URL
    have hd2 : ("https://drive.google.com/file/d/" ++ id ++ "/view").data =
        "https://drive.google.com".data ++
          ("/file/d/".data ++ (id.data ++ "/view".data)) := by
      rw [String.data_append, String.data_append,
        show ("https://drive.google.com/file/d/" : String).data =
          "https://drive.google.com".data ++ "/file/d/".data from rfl,
        List.append_assoc, List.append_assoc]
    have hd2bis : ("https://drive.google.com/file/d/" ++ id ++ "/view").data =
        "https://drive.google.com/file/d".data ++
          ('/' :: (id.data ++ "/view".data)) := by
      rw [hd2,
        show ("https://drive.google.com" : String).data ++
            ("/file/d/".data ++ (id.data ++ "/view".data)) =
          ("https://drive.google.com".data ++ "/file/d".data) ++
            (['/'] ++ (id.data ++ "/view".data)) from by
          simp [List.append_assoc]]
      rfl
    have hemp2 :
        ("https://drive.google.com/file/d/" ++ id ++ "/view").data.isEmpty =
          false := by
      rw [hd2]; rfl
    have h2a : ("https://drive.google.com/file/d/" ++ id ++ "/view").data =
        'h' :: ("ttps://drive.google.com".data ++
          ("/file/d/".data ++ (id.data ++ "/view".data))) := by
      rw [hd2]; rfl
    have h2b : ("https://drive.google.com/file/d/" ++ id ++ "/view").data =
        (("https://drive.google.com/file/d/".data ++ id.data) ++
          "/vie".data) ++ ['w'] := by
      rw [String.data_append, String.data_append,
        show ("/view" : String).data = "/vie".data ++ ['w'] from rfl,
        ← List.append_assoc]
    have hstrip2 : stripChars
        ("https://drive.google.com/file/d/" ++ id ++ "/view").data =
        ("https://drive.google.com/file/d/" ++ id ++ "/view").data :=
      stripChars_eq_self_of_edges _ 'h' 'w' _ _ h2a h2b (by decide) (by decide)
    have hps2 : pyStrip ("https://drive.google.com/file/d/" ++ id ++ "/view") =
        "https://drive.google.com/file/d/" ++ id ++ "/view" := by
      rw [pyStrip, hstrip2]
    have hconc2 : ∀ j, j < 31 → listStartsWith
        ("/document/d/".data.take
          (("https://drive.google.com/file/d".data.drop j ++ ['/']).length))
        ("https://drive.google.com/file/d".data.drop j ++ ['/']) = false := by
      decide
    have hskip2 : ∀ j, j < ("https://drive.google.com/file/d".data).length →
        listStartsWith "/document/d/".data
          ("https://drive.google.com/file/d".data.drop j ++
            ('/' :: (id.data ++ "/view".data))) = false := by
      intro j hj
      rw [show "https://drive.google.com/file/d".data.drop j ++
            ('/' :: (id.data ++ "/view".data)) =
          ("https://drive.google.com/file/d".data.drop j ++ ['/']) ++
            (id.data ++ "/view".data) from by simp]
      exact listStartsWith_append_false _ _ _ (hconc2 j hj)
    have hnot : listStartsWith ('/' :: "document/d/".data)
        ('/' :: (id.data ++ "/view".data)) = false := by
      simp only [listStartsWith, Bool.and_eq_false_iff]
      refine Or.inr ?_
      refine listStartsWith_idrun_break ['d', 'o', 'c', 'u', 'm', 'e', 'n', 't']
        '/' ['d', '/'] (by decide) id.data ['/', 'v', 'i', 'e', 'w'] (by decide)
        hid ?_ (by decide)
      intro d hd
      have hd' : d = '/' := by simpa using hd.symm
      rw [hd']
      decide
    have hsdnone : searchIdAfter "/document/d/".data
        ("https://drive.google.com/file/d/" ++ id ++ "/view").data = none := by
      rw [hd2bis, searchIdAfter_append_skip _ _ _ hskip2,
        show ("/document/d/" : String).data = '/' :: "document/d/".data from rfl,
        searchIdAfter_cons_not _ _ _ hnot,
        searchIdAfter_skip_idRegion '/' _ (by decide) id.data _ hid]
      decide
    have hrun2 : takeIdRun (id.data ++ "/view".data) = id.data := by
      rw [show ("/view" : String).data = '/' :: "view".data from rfl]
      exact takeIdRun_append_stop _ _ _ hid (by decide)
    have hconc3 : ∀ j, j < 24 → listStartsWith
        ("/file/d/".data.take
          (("https://drive.google.com".data.drop j ++ "/file/d/".data).length))
        ("https://drive.google.com".data.drop j ++ "/file/d/".data) = false := by
      decide
    have hskip3 : ∀ j, j < ("https://drive.google.com".data).length →
        listStartsWith "/file/d/".data
          ("https://drive.google.com".data.drop j ++
            ("/file/d/".data ++ (id.data ++ "/view".data))) = false := by
      intro j hj
      rw [← List.append_assoc]
      exact listStartsWith_append_false _ _ _ (hconc3 j hj)
    have hsf2 : searchIdAfter "/file/d/".data
        ("https://drive.google.com/file/d/" ++ id ++ "/view").data =
        some id.data := by
      rw [hd2, searchIdAfter_append_skip _ _ _ hskip3,
        show ("/file/d/" : String).data = '/' :: "file/d/".data from rfl,
        searchIdAfter_front_found '/' _ _ (by rw [hrun2]; exact hne), hrun2]
    simp only [extract_doc_id, hemp2, Bool.false_eq_true, if_false, hps2,
      hsdnone, hsf2]
  · -- bare identifier in range
    intro hlen
    have hmb : matchBareId id.data = true := by
      simp [matchBareId, hid]
      exact hlen
    rw [extract_doc_id_bare_eval id hid hne', hmb]
    rfl
  · -- bare identifier of length 24 or 61
    intro hlen
    have hmb : matchBareId id.data = false := by
      rcases hlen with h | h <;> simp [matchBareId, h]
    rw [extract_doc_id_bare_eval id hid hne', hmb]
    rfl

/-- C4, witness at a 25-character identifier. -/
theorem c4_link_resolution_witness :
    ("abcdefghijklmnopqrstuvwxy".data ≠ []) ∧
    ("abcdefghijklmnopqrstuvwxy".data.all isIdChar = true) ∧
    (extract_doc_id
        (some ("https://docs.google.com/document/d/" ++
          "abcdefghijklmnopqrstuvwxy" ++ "/edit")) =
      some "abcdefghijklmnopqrstuvwxy" ∧
    extract_doc_id
        (some ("https://drive.google.com/file/d/" ++
          "abcdefghijklmnopqrstuvwxy" ++ "/view")) =
      some "abcdefghijklmnopqrstuvwxy" ∧
    (25 ≤ "abcdefghijklmnopqrstuvwxy".data.length ∧
        "abcdefghijklmnopqrstuvwxy".data.length ≤ 60 →
      extract_doc_id (some "abcdefghijklmnopqrstuvwxy") =
        some "abcdefghijklmnopqrstuvwxy") ∧
    ("abcdefghijklmnopqrstuvwxy".data.length = 24 ∨
        "abcdefghijklmnopqrstuvwxy".data.length = 61 →
      extract_doc_id (some "abcdefghijklmnopqrstuvwxy") = none) ∧
    extract_doc_id (some "/file/d/AAA/document/d/BBB") = some "BBB") :=
  ⟨by decide, by decide,
    c4_link_resolution "abcdefghijklmnopqrstuvwxy" (by decide) (by decide)⟩

end GDocExtract
